import Mathlib

/-!
Verification of the data-quality and versioning core of the cmmc-data-pipeline
repository: a shallow embedding in Lean 4 of

  * `src/pipeline/versioning.py`   (`VersionManager`)
  * `src/processors/dedup.py`      (`DedupIndex`)
  * `src/processors/quality_filter.py` (`filter_record`)
  * `src/pipeline/validator.py`    (`DataValidator`)

together with theorems settling the frozen specification claims.

Modelling conventions, used throughout:

  * Python `dict`-backed JSON records are modelled by explicit structures with
    `Option` fields (a missing key is `none`); `dict.get(k, d)` becomes
    `Option.getD`.
  * The filesystem side of `VersionManager` is modelled as explicit state: the
    version directories are an association list from directory name to the
    content of its `records.jsonl`, the training area carries the content of
    `train.jsonl` (`none` = file absent) and the list of backup files written.
  * A Python function that can `raise` is modelled as returning a pair
    `Except Err Out × State`: the returned state is the post-state, which, on
    an error, equals the pre-state whenever the Python `raise` happens before
    any mutation (which is the case for every operation modelled here).
  * Machine floats appearing in threshold comparisons (`0.3`, average lengths)
    are modelled as exact rationals; `round` is modelled as Python round
    (half-to-even).  Unicode character classes (`str.isalpha`, `\d`, `strip`)
    are modelled by their ASCII restrictions.
  * The `xxh64` exact fingerprint is modelled by the text itself (the spec
    invariant "equal text => equal fingerprint", collisions abstracted away).
  * The MinHash/LSH near-duplicate query is abstracted as a parameter
    `near : String → String → Bool`, where `near stored query = true` means
    the LSH query for `query` returns the bucket entry that was inserted for
    `stored`.  The datasketch structure is deterministic, so the behaviour of
    the real code is one particular such function; theorems quantify over it
    or instantiate it where a concrete relation is needed.
-/

/-! ## Generic character and list helpers (Python string primitives) -/

/-- Python whitespace as used by `str.strip` (ASCII restriction). -/
def pySpace (c : Char) : Bool :=
  c = ' ' || c = '\t' || c = '\n' || c = '\r' || c = '\x0b' || c = '\x0c'

/-- `str.strip()` on a list of characters. -/
def pyStrip (l : List Char) : List Char :=
  ((l.dropWhile pySpace).reverse.dropWhile pySpace).reverse

/-- Does `hay` start with `needle`? -/
def startsWithList : List Char → List Char → Bool
  | [], _ => true
  | _ :: _, [] => false
  | a :: as, b :: bs => a = b && startsWithList as bs

/-- Substring containment test (Python `in` on strings). -/
def containsList (needle : List Char) : List Char → Bool
  | [] => startsWithList needle []
  | hay@(_ :: rest) => startsWithList needle hay || containsList needle rest

/-- Helper for `countSub`: scan the haystack one character at a time; after
a match, the next `needle.length - 1` positions are consumed without being
tested, which makes the count non-overlapping while keeping the recursion
structural. -/
def countSubAux (needle : List Char) : List Char → Nat → Nat
  | [], _ => 0
  | c :: rest, skip =>
    if 0 < skip then countSubAux needle rest (skip - 1)
    else if startsWithList needle (c :: rest) then
      1 + countSubAux needle rest (needle.length - 1)
    else countSubAux needle rest 0

/-- Python `str.count`: non-overlapping occurrence count, scanning left to
right.  For the empty needle Python returns `len + 1`. -/
def countSub (needle hay : List Char) : Nat :=
  if needle.isEmpty then hay.length + 1 else countSubAux needle hay 0

/-! ## Decimal numerals: printer and parser

`VersionManager._next_version` round-trips version numbers through the strings
`"vNNN"` (`f"v{n:03d}"` to print, `int(v.lstrip("v"))` to parse).  We model
the printer and parser explicitly and prove the round trip. -/

/-- The ASCII digit character for `d < 10`. -/
def digitChar (d : Nat) : Char := Char.ofNat (48 + d)

/-- Decimal digits of `n`, most significant first, prepended to `acc`. -/
def natDigitsCore (n : Nat) (acc : List Char) : List Char :=
  if h : n < 10 then digitChar n :: acc
  else natDigitsCore (n / 10) (digitChar (n % 10) :: acc)
termination_by n
decreasing_by
  exact Nat.div_lt_self (by omega) (by omega)

/-- Decimal representation of `n` (`"0"` for zero). -/
def natDigits (n : Nat) : List Char := natDigitsCore n []

/-- Numeric value of an ASCII digit character. -/
def digitVal (c : Char) : Option Nat :=
  if '0' ≤ c ∧ c ≤ '9' then some (c.toNat - 48) else none

/-- Accumulating decimal parser: fails on the first non-digit. -/
def parseCore (acc : Nat) : List Char → Option Nat
  | [] => some acc
  | c :: cs =>
    match digitVal c with
    | some d => parseCore (acc * 10 + d) cs
    | none => none

/-- Python `int()` on a digit string: at least one digit, all digits.
(Python also tolerates surrounding whitespace and a sign; the version ids
handled here never carry those.) -/
def parseDec : List Char → Option Nat
  | [] => none
  | l@(_ :: _) => parseCore 0 l

/-- The value of `shiftAcc acc n` is `acc` shifted left by the number of
decimal digits of `n`, plus `n`; companion of `natDigitsCore`. -/
def shiftAcc (acc n : Nat) : Nat :=
  if h : n < 10 then acc * 10 + n
  else shiftAcc acc (n / 10) * 10 + n % 10
termination_by n
decreasing_by
  exact Nat.div_lt_self (by omega) (by omega)

theorem digitVal_digitChar {d : Nat} (h : d < 10) :
    digitVal (digitChar d) = some d := by
  interval_cases d <;> decide

theorem digitChar_ne_v {d : Nat} (h : d < 10) : digitChar d ≠ 'v' := by
  interval_cases d <;> decide

theorem parseCore_natDigitsCore (n : Nat) :
    ∀ acc rest, parseCore acc (natDigitsCore n rest) =
      parseCore (shiftAcc acc n) rest := by
  induction n using Nat.strong_induction_on with
  | _ n ih =>
    intro acc rest
    by_cases h : n < 10
    · rw [natDigitsCore, dif_pos h, shiftAcc, dif_pos h]
      simp [parseCore, digitVal_digitChar h]
    · rw [natDigitsCore, dif_neg h, shiftAcc, dif_neg h]
      rw [ih (n / 10) (Nat.div_lt_self (by omega) (by omega))]
      simp [parseCore, digitVal_digitChar (Nat.mod_lt n (by omega))]

theorem shiftAcc_zero (n : Nat) : shiftAcc 0 n = n := by
  induction n using Nat.strong_induction_on with
  | _ n ih =>
    by_cases h : n < 10
    · rw [shiftAcc, dif_pos h]; omega
    · rw [shiftAcc, dif_neg h]
      rw [ih (n / 10) (Nat.div_lt_self (by omega) (by omega))]
      omega

theorem parseCore_zeros (k : Nat) :
    ∀ l, parseCore 0 (List.replicate k '0' ++ l) = parseCore 0 l := by
  induction k with
  | zero => intro l; rfl
  | succ k ih =>
    intro l
    have : digitVal '0' = some 0 := by decide
    simp [List.replicate_succ, parseCore, this, ih l]

theorem natDigitsCore_head (n : Nat) :
    ∀ rest, ∃ d t, d < 10 ∧ natDigitsCore n rest = digitChar d :: t := by
  induction n using Nat.strong_induction_on with
  | _ n ih =>
    intro rest
    by_cases h : n < 10
    · exact ⟨n, rest, h, by rw [natDigitsCore, dif_pos h]⟩
    · obtain ⟨d, t, hd, ht⟩ :=
        ih (n / 10) (Nat.div_lt_self (by omega) (by omega))
          (digitChar (n % 10) :: rest)
      exact ⟨d, t, hd, by rw [natDigitsCore, dif_neg h, ht]⟩

theorem parseDec_of_ne_nil {l : List Char} (h : l ≠ []) :
    parseDec l = parseCore 0 l := by
  cases l with
  | nil => exact absurd rfl h
  | cons c cs => rfl

/-- `parseDec` inverts `natDigits`, also through any prefix of zero padding. -/
theorem parseDec_pad_natDigits (k n : Nat) :
    parseDec (List.replicate k '0' ++ natDigits n) = some n := by
  obtain ⟨d, t, hd, ht⟩ := natDigitsCore_head n []
  have hne : List.replicate k '0' ++ natDigits n ≠ [] := by
    simp [natDigits, ht]
  rw [parseDec_of_ne_nil hne, parseCore_zeros, natDigits,
    parseCore_natDigitsCore, shiftAcc_zero]
  rfl

/-! ## VersionManager (src/pipeline/versioning.py)

The store state is the manifest plus the version directories.  `dirs` maps a
version directory name to the content of its `records.jsonl` (written only by
`create_snapshot`); a directory whose `records.jsonl` is missing is modelled
as an entry with an empty record list, which `_load_version_records` cannot
distinguish from an empty file.  Records are opaque to the manager, so the
record type is a parameter `α`. -/

structure VersionInfo where
  version : String
  created_at : String
  description : String
  record_count : Nat
  sources : List String
  /-- `parent_version = manifest.get("current", "")`: the manifest always has
  a `current` key, so this is the stored value, possibly null. -/
  parent_version : Option String
deriving DecidableEq

structure Manifest where
  versions : List VersionInfo
  current : Option String
deriving DecidableEq

structure Store (α : Type) where
  manifest : Manifest
  dirs : List (String × List α)
deriving DecidableEq

inductive VErr where
  | notFound
  | cannotDeleteCurrent
  | badVersionId
  | noTrainingDir
  | noVersion
  | emptyVersion
deriving DecidableEq

/-- `f"v{n:03d}"`: the version-id printer. -/
def mkVersion (n : Nat) : String :=
  String.mk ('v' :: (List.replicate (3 - (natDigits n).length) '0' ++ natDigits n))

/-- `int(v.lstrip("v"))`: strip every leading `v`, then parse a decimal
numeral; `none` models the `ValueError` Python would raise. -/
def parseVersionNum (s : String) : Option Nat :=
  parseDec (s.data.dropWhile (fun c => c == 'v'))

def versionNames (m : Manifest) : List String := m.versions.map (fun i => i.version)

/-- Parse every version suffix; `none` as soon as one fails, like the
generator feeding Python `max`. -/
def parseAll : List String → Option (List Nat)
  | [] => some []
  | s :: rest =>
    match parseVersionNum s with
    | some n => (parseAll rest).map (fun ns => n :: ns)
    | none => none

/-- `VersionManager._next_version`, with the `int()` parse failure surfaced
as `none`. -/
def next_version (m : Manifest) : Option String :=
  let existing := versionNames m
  if existing.isEmpty then some "v001"
  else
    match parseAll existing with
    | some nums => some (mkVersion (nums.foldl max 0 + 1))
    | none => none

/-- Writing a version directory: `mkdir(exist_ok=True)` plus overwriting
`records.jsonl`. -/
def dirWrite {α : Type} (dirs : List (String × List α)) (v : String) (recs : List α) :
    List (String × List α) :=
  (v, recs) :: dirs.filter (fun p => p.1 ≠ v)

/-- `VersionManager.create_snapshot`.  `created_at` is the wall-clock
timestamp, an input here; `sources=None` is passed as `[]` by the caller
(`sources or []`). -/
def create_snapshot {α : Type} (st : Store α) (records : List α) (description : String)
    (sources : List String) (created_at : String) : Except VErr String × Store α :=
  match next_version st.manifest with
  | none => (.error .badVersionId, st)
  | some version =>
    let info : VersionInfo :=
      { version := version, created_at := created_at, description := description,
        record_count := records.length, sources := sources,
        parent_version := st.manifest.current }
    (.ok version,
      { manifest := { versions := st.manifest.versions ++ [info], current := some version },
        dirs := dirWrite st.dirs version records })

/-- `VersionManager._load_version_records`: a missing directory or missing
`records.jsonl` loads as `[]`. -/
def load_version_records {α : Type} (st : Store α) (version : String) : List α :=
  (st.dirs.lookup version).getD []

/-- `VersionManager.rollback`: succeeds iff the target directory exists. -/
def rollback {α : Type} (st : Store α) (target_version : String) :
    Except VErr (List α) × Store α :=
  if (st.dirs.lookup target_version).isSome then
    (.ok (load_version_records st target_version),
      { st with manifest := { st.manifest with current := some target_version } })
  else (.error .notFound, st)

/-- `VersionManager.delete_version`: guarded against the current version,
then removes the directory (if present) and every manifest entry with that
version id. -/
def delete_version {α : Type} (st : Store α) (version : String) :
    Except VErr Unit × Store α :=
  if st.manifest.current = some version then (.error .cannotDeleteCurrent, st)
  else
    (.ok (),
      { manifest := { versions := st.manifest.versions.filter (fun v => v.version ≠ version),
                      current := st.manifest.current },
        dirs := st.dirs.filter (fun p => p.1 ≠ version) })

/-- The training-data area touched by `merge_to_training`: the configured
directory (`none` when `training_data_dir` was not given or falsy), the
content of `train.jsonl` (`none` = file absent) and the backup files
written so far. -/
structure TrainingArea (α : Type) where
  dir : Option String
  train_file : Option (List α)
  backups : List (String × List α)
deriving DecidableEq

/-- `version = version or self.manifest.get("current")`: an explicit falsy
(empty) version argument falls back to the current pointer. -/
def resolve_version {α : Type} (st : Store α) (vOpt : Option String) : Option String :=
  match vOpt with
  | some s => if s = "" then st.manifest.current else some s
  | none => st.manifest.current

/-- `VersionManager.merge_to_training`.  The store itself is read-only here;
only the training area changes. -/
def merge_to_training {α : Type} (st : Store α) (area : TrainingArea α)
    (vOpt : Option String) : Except VErr String × TrainingArea α :=
  match area.dir with
  | none => (.error .noTrainingDir, area)
  | some d =>
    match resolve_version st vOpt with
    | none => (.error .noVersion, area)
    | some version =>
      if version = "" then (.error .noVersion, area)
      else
        let records := load_version_records st version
        if records.isEmpty then (.error .emptyVersion, area)
        else
          let existing := area.train_file.getD []
          let backups :=
            match area.train_file with
            | some content => area.backups ++ [("train.jsonl.bak." ++ version, content)]
            | none => area.backups
          (.ok (d ++ "/train.jsonl"),
            { dir := area.dir, train_file := some (existing ++ records),
              backups := backups })

/-- The spec's manifest invariant: `current` is null or names an entry of
`versions`. -/
def manifest_ok (m : Manifest) : Bool :=
  match m.current with
  | none => true
  | some c => (versionNames m).contains c

/-- A fresh store, as built by `VersionManager.__init__` when no manifest
file exists yet. -/
def fresh_store (α : Type) : Store α :=
  { manifest := { versions := [], current := none }, dirs := [] }

/-- Repeated `create_snapshot` calls; `none` as soon as one raises. -/
def run_snapshots {α : Type} :
    Store α → List (List α × String × List String × String) →
      Option (Store α × List String)
  | st, [] => some (st, [])
  | st, (recs, d, srcs, t) :: rest =>
    match create_snapshot st recs d srcs t with
    | (Except.ok v, st') => (run_snapshots st' rest).map (fun p => (p.1, v :: p.2))
    | (Except.error _, _) => none

/-! ### Version-id round trip and canonical numbering -/

theorem dropWhile_v_pad (n k : Nat) :
    (List.replicate k '0' ++ natDigits n).dropWhile (fun c => c == 'v')
      = List.replicate k '0' ++ natDigits n := by
  cases k with
  | zero =>
    obtain ⟨d, t, hd, ht⟩ := natDigitsCore_head n []
    have hne : (digitChar d == 'v') = false := by
      simpa using digitChar_ne_v hd
    simp only [List.replicate, List.nil_append, natDigits, ht,
      List.dropWhile_cons, hne]
    simp
  | succ m =>
    rw [List.replicate_succ, List.cons_append, List.dropWhile_cons]
    simp

theorem parseVersionNum_mkVersion (n : Nat) :
    parseVersionNum (mkVersion n) = some n := by
  show parseDec ((('v' :: (List.replicate (3 - (natDigits n).length) '0' ++
      natDigits n)) : List Char).dropWhile (fun c => c == 'v')) = some n
  rw [List.dropWhile_cons]
  simp only [show (('v' : Char) == 'v') = true from rfl, if_true]
  rw [dropWhile_v_pad]
  exact parseDec_pad_natDigits _ n

theorem parseAll_map_mkVersion (l : List Nat) :
    parseAll (l.map mkVersion) = some l := by
  induction l with
  | nil => rfl
  | cons x xs ih =>
    simp [parseAll, parseVersionNum_mkVersion, ih]

theorem mkVersion_one : mkVersion 1 = "v001" := by
  unfold mkVersion natDigits
  rw [natDigitsCore, dif_pos (by omega : (1 : Nat) < 10)]
  decide

theorem foldl_max_range_map (k : Nat) :
    ((List.range k).map (fun i => i + 1)).foldl max 0 = k := by
  induction k with
  | zero => rfl
  | succ k ih =>
    rw [List.range_succ, List.map_append, List.foldl_append, ih]
    simp [List.foldl]

theorem next_version_canonical (m : Manifest) (k : Nat)
    (h : versionNames m = (List.range k).map (fun i => mkVersion (i + 1))) :
    next_version m = some (mkVersion (k + 1)) := by
  unfold next_version
  rw [h]
  cases k with
  | zero =>
    simp only [List.range_zero, List.map_nil, List.isEmpty_nil, if_true]
    rw [show (0 : Nat) + 1 = 1 from rfl, mkVersion_one]
  | succ j =>
    have hmap : (List.range (j + 1)).map (fun i => mkVersion (i + 1)) =
        ((List.range (j + 1)).map (fun i => i + 1)).map mkVersion := by
      rw [List.map_map]; rfl
    have hne : ((List.range (j + 1)).map (fun i => mkVersion (i + 1))).isEmpty = false := by
      simp [List.isEmpty_iff, List.range_succ]
    simp only [hne, Bool.false_eq_true, if_false]
    rw [hmap, parseAll_map_mkVersion]
    simp only [foldl_max_range_map]

theorem create_snapshot_canonical {α : Type} (st : Store α) (k : Nat)
    (recs : List α) (d : String) (srcs : List String) (t : String)
    (h : versionNames st.manifest = (List.range k).map (fun i => mkVersion (i + 1))) :
    ∃ st', create_snapshot st recs d srcs t = (Except.ok (mkVersion (k + 1)), st') ∧
      versionNames st'.manifest = (List.range (k + 1)).map (fun i => mkVersion (i + 1)) ∧
      st'.manifest.current = some (mkVersion (k + 1)) := by
  unfold create_snapshot
  rw [next_version_canonical st.manifest k h]
  refine ⟨_, rfl, ?_, rfl⟩
  have h' : st.manifest.versions.map (fun i => i.version) =
      (List.range k).map (fun i => mkVersion (i + 1)) := h
  simp [versionNames, List.range_succ, h']

theorem run_snapshots_canonical {α : Type} :
    ∀ (batches : List (List α × String × List String × String)) (st : Store α) (k : Nat),
      versionNames st.manifest = (List.range k).map (fun i => mkVersion (i + 1)) →
      (run_snapshots st batches).map Prod.snd =
        some ((List.range' (k + 1) batches.length).map mkVersion) := by
  intro batches
  induction batches with
  | nil => intro st k h; rfl
  | cons b rest ih =>
    intro st k h
    obtain ⟨recs, d, srcs, t⟩ := b
    obtain ⟨st', heq, hnames, _⟩ := create_snapshot_canonical st k recs d srcs t h
    have hrec := ih st' (k + 1) hnames
    rw [run_snapshots, heq]
    cases hr : run_snapshots st' rest with
    | none => rw [hr] at hrec; cases hrec
    | some p =>
      rw [hr] at hrec
      simp at hrec
      simp [hr, List.range'_succ, hrec]

/-! ### Claim theorems: VersionManager -/

/-- A store used as concrete test input: one snapshot `v001`, plus a second
manifest entry `v002`, with `v001` current. -/
def sampleStore : Store Nat :=
  { manifest :=
      { versions :=
          [{ version := "v001", created_at := "t1", description := "",
             record_count := 2, sources := [], parent_version := none },
           { version := "v002", created_at := "t2", description := "",
             record_count := 1, sources := [], parent_version := some "v001" }],
        current := some "v001" },
    dirs := [("v001", [10, 20]), ("v002", [30])] }

/-- A store whose manifest is empty but whose `versions/` directory holds an
orphan `v001` directory — exactly the orphan state §4.4 of the spec accepts
as reachable after a crash between file write and manifest update. -/
def orphanStore : Store Nat :=
  { manifest := { versions := [], current := none }, dirs := [("v001", [])] }

/-- C4: `delete_version` on the version the manifest marks current raises the
InvalidOperation-class error (`ValueError("Cannot delete the current
version...")`) and returns with the store — manifest and version
directories — unchanged. -/
theorem delete_version_current_rejected {α : Type} (st : Store α) (v : String)
    (h : st.manifest.current = some v) :
    delete_version st v = (Except.error VErr.cannotDeleteCurrent, st) := by
  unfold delete_version
  rw [if_pos h]

/-- C4 witness: the guard fires on a concrete store. -/
theorem delete_version_current_rejected_wit :
    sampleStore.manifest.current = some "v001" ∧
    delete_version sampleStore "v001" =
      (Except.error VErr.cannotDeleteCurrent, sampleStore) :=
  ⟨rfl, delete_version_current_rejected sampleStore "v001" rfl⟩

/-- C7: `rollback` never changes the version list or the version
directories; when the target directory exists it returns that version's
records and only moves `current` to the target, and when the target
directory is absent it fails with the NotFound-class error
(`ValueError("... not found")`) leaving the whole store unchanged. -/
theorem rollback_frame {α : Type} (st : Store α) (target : String) :
    (rollback st target).2.manifest.versions = st.manifest.versions ∧
    (rollback st target).2.dirs = st.dirs ∧
    ((st.dirs.lookup target).isSome = true →
      rollback st target =
        (Except.ok (load_version_records st target),
         { st with manifest := { st.manifest with current := some target } })) ∧
    ((st.dirs.lookup target).isSome = false →
      rollback st target = (Except.error VErr.notFound, st)) := by
  unfold rollback
  by_cases hl : (st.dirs.lookup target).isSome = true
  · simp [hl]
  · simp [hl]

/-- C7 witness: a present target (`v002`) and an absent one (`v999`) on a
concrete store. -/
theorem rollback_frame_wit :
    rollback sampleStore "v002" =
      (Except.ok (load_version_records sampleStore "v002"),
       { sampleStore with
           manifest := { sampleStore.manifest with current := some "v002" } }) ∧
    rollback sampleStore "v999" = (Except.error VErr.notFound, sampleStore) :=
  ⟨(rollback_frame sampleStore "v002").2.2.1 (by decide),
   (rollback_frame sampleStore "v999").2.2.2 (by decide)⟩

/-- C1 counterexample: from a state satisfying the manifest invariant,
`rollback` to an orphan version directory (present on disk, absent from the
manifest) succeeds and leaves `current` pointing at a version id that is in
no manifest entry, so the claimed invariant preservation fails as stated. -/
theorem rollback_breaks_manifest_inv :
    manifest_ok orphanStore.manifest = true ∧
    (rollback orphanStore "v001").1 = Except.ok [] ∧
    manifest_ok (rollback orphanStore "v001").2.manifest = false :=
  ⟨rfl, rfl, rfl⟩

/-- C1 (amended): from any state satisfying the manifest invariant,
`create_snapshot` and `delete_version` preserve it unconditionally, and
`rollback` preserves it provided the rollback target is recorded in the
manifest version list (the directory-existence check alone does not
guarantee this: see the counterexample). -/
theorem manifest_inv_preserved {α : Type} (st : Store α)
    (hinv : manifest_ok st.manifest = true) :
    (∀ (records : List α) description sources created_at,
      manifest_ok (create_snapshot st records description sources created_at).2.manifest
        = true) ∧
    (∀ v, manifest_ok (delete_version st v).2.manifest = true) ∧
    (∀ target, target ∈ versionNames st.manifest →
      manifest_ok (rollback st target).2.manifest = true) := by
  refine ⟨?_, ?_, ?_⟩
  · intro records description sources created_at
    unfold create_snapshot
    cases hnv : next_version st.manifest with
    | none => exact hinv
    | some v =>
      simp only [manifest_ok, versionNames, List.map_append]
      simp [List.contains, List.elem_iff]
  · intro v
    unfold delete_version
    by_cases hc : st.manifest.current = some v
    · rw [if_pos hc]; exact hinv
    · rw [if_neg hc]
      cases hcur : st.manifest.current with
      | none => simp [manifest_ok, hcur]
      | some c =>
        have hcv : c ≠ v := fun hcv => hc (by rw [hcur, hcv])
        have hmem : c ∈ versionNames st.manifest := by
          unfold manifest_ok at hinv
          rw [hcur] at hinv
          simpa [List.contains, List.elem_iff] using hinv
        obtain ⟨i, hi, hiv⟩ : ∃ i ∈ st.manifest.versions, i.version = c := by
          simpa [versionNames, List.mem_map] using hmem
        simp only [manifest_ok, hcur]
        refine List.elem_iff.mpr ?_
        simp only [versionNames, List.mem_map]
        exact ⟨i, List.mem_filter.mpr ⟨hi, by simp [hiv, hcv]⟩, hiv⟩
  · intro target hmem
    unfold rollback
    by_cases hl : (st.dirs.lookup target).isSome = true
    · simp only [hl, if_true]
      simp only [manifest_ok]
      simpa [versionNames, List.contains, List.elem_iff] using hmem
    · simp only [hl, if_false]
      simpa [hl] using hinv

/-- C1 witness: all three preservation facts at a concrete store. -/
theorem manifest_inv_preserved_wit :
    manifest_ok (create_snapshot sampleStore [7] "" [] "t3").2.manifest = true ∧
    manifest_ok (delete_version sampleStore "v002").2.manifest = true ∧
    manifest_ok (rollback sampleStore "v002").2.manifest = true := by
  have h := manifest_inv_preserved sampleStore (by decide)
  exact ⟨h.1 [7] "" [] "t3", h.2.1 "v002", h.2.2 "v002" (by decide)⟩

theorem range'_map_mkVersion : ∀ (n s : Nat),
    (List.range' s n).map mkVersion = (List.range n).map (fun i => mkVersion (s + i)) := by
  intro n
  induction n with
  | zero => intro s; rfl
  | succ n ih =>
    intro s
    rw [List.range'_succ, List.map_cons, ih (s + 1), List.range_succ_eq_map,
      List.map_cons, List.map_map]
    refine congrArg₂ List.cons (by rw [Nat.add_zero]) ?_
    apply List.map_congr_left
    intro i _
    show mkVersion (s + 1 + i) = mkVersion (s + (i + 1))
    congr 1
    omega

/-- C8: version-id allocation reads only the manifest: on an empty version
list the next id is `v001`; otherwise it is the maximum parsed numeric
suffix plus one, rendered by the `f"v{n:03d}"` printer `mkVersion`; on a
fresh store the Nth snapshot in a row is `mkVersion N` (= `v{N:03d}`); and
after a successful `create_snapshot` or `rollback`, `current` is exactly the
version just created or rolled back to. -/
theorem version_allocation {α : Type} :
    (∀ (st : Store α) (records : List α) description sources created_at,
      st.manifest.versions = [] →
      (create_snapshot st records description sources created_at).1 = Except.ok "v001") ∧
    (∀ (st : Store α) (records : List α) description sources created_at nums,
      versionNames st.manifest ≠ [] →
      parseAll (versionNames st.manifest) = some nums →
      (create_snapshot st records description sources created_at).1 =
        Except.ok (mkVersion (nums.foldl max 0 + 1))) ∧
    (∀ batches : List (List α × String × List String × String),
      (run_snapshots (fresh_store α) batches).map Prod.snd =
        some ((List.range batches.length).map (fun i => mkVersion (i + 1)))) ∧
    (∀ (st : Store α) (records : List α) description sources created_at v st',
      create_snapshot st records description sources created_at = (Except.ok v, st') →
      st'.manifest.current = some v) ∧
    (∀ (st : Store α) target out st',
      rollback st target = (Except.ok out, st') → st'.manifest.current = some target) := by
  refine ⟨?_, ?_, ?_, ?_, ?_⟩
  · intro st records description sources created_at hempty
    have hnv : next_version st.manifest = some "v001" := by
      unfold next_version
      simp [versionNames, hempty]
    unfold create_snapshot
    rw [hnv]
  · intro st records description sources created_at nums hne hparse
    have hie : (versionNames st.manifest).isEmpty = false := by
      simpa [List.isEmpty_iff] using hne
    have hnv : next_version st.manifest = some (mkVersion (nums.foldl max 0 + 1)) := by
      unfold next_version
      simp [hie, hparse]
    unfold create_snapshot
    rw [hnv]
  · intro batches
    have h0 : versionNames (fresh_store α).manifest =
        (List.range 0).map (fun i => mkVersion (i + 1)) := rfl
    rw [run_snapshots_canonical batches (fresh_store α) 0 h0,
      range'_map_mkVersion batches.length 1]
    exact congrArg some (List.map_congr_left fun i _ => by congr 1; omega)
  · intro st records description sources created_at v st' heq
    unfold create_snapshot at heq
    cases hnv : next_version st.manifest with
    | none => rw [hnv] at heq; cases heq
    | some w =>
      rw [hnv] at heq
      simp only [Prod.mk.injEq, Except.ok.injEq] at heq
      obtain ⟨hv, hst⟩ := heq
      rw [← hst]
      exact congrArg some hv
  · intro st target out st' heq
    unfold rollback at heq
    by_cases hl : (st.dirs.lookup target).isSome = true
    · rw [if_pos hl] at heq
      simp only [Prod.mk.injEq, Except.ok.injEq] at heq
      rw [← heq.2]
    · rw [if_neg hl] at heq
      cases heq

/-- C8 witness: concrete allocations — `v001` on an empty manifest, `v003`
after suffixes 1 and 2, a two-snapshot run from a fresh store, and the
current-pointer updates. -/
theorem version_allocation_wit :
    (create_snapshot (fresh_store Nat) [1] "d" [] "t").1 = Except.ok "v001" ∧
    (create_snapshot sampleStore [1] "d" [] "t").1 =
      Except.ok (mkVersion (([1, 2].foldl max 0) + 1)) ∧
    (run_snapshots (fresh_store Nat)
        [([1], "a", [], "t1"), ([2], "b", [], "t2")]).map Prod.snd =
      some ((List.range 2).map (fun i => mkVersion (i + 1))) ∧
    ((create_snapshot (fresh_store Nat) [1] "d" [] "t").2).manifest.current =
      some "v001" ∧
    ((rollback sampleStore "v002").2).manifest.current = some "v002" := by
  refine ⟨?_, ?_, ?_, ?_, ?_⟩
  · exact (version_allocation (α := Nat)).1 (fresh_store Nat) [1] "d" [] "t" rfl
  · exact (version_allocation (α := Nat)).2.1 sampleStore [1] "d" [] "t" [1, 2]
      (by decide) (by decide)
  · exact (version_allocation (α := Nat)).2.2.1 [([1], "a", [], "t1"), ([2], "b", [], "t2")]
  · exact (version_allocation (α := Nat)).2.2.2.1 (fresh_store Nat) [1] "d" [] "t"
      "v001" _ rfl
  · exact (version_allocation (α := Nat)).2.2.2.2 sampleStore "v002" _ _ rfl

/-- C3: on a configured training area whose destination file exists with E
records, merging a resolvable version with N > 0 records writes the E
existing records followed by the N version records (E + N in total, in
order), records exactly one backup file named with the merged version id and
holding the pre-merge destination content, and returns the destination
path. -/
theorem merge_append_law {α : Type} (st : Store α) (area : TrainingArea α)
    (d : String) (existing records : List α) (vOpt : Option String) (v : String)
    (hd : area.dir = some d)
    (hf : area.train_file = some existing)
    (hv : resolve_version st vOpt = some v) (hv0 : v ≠ "")
    (hr : st.dirs.lookup v = some records) (hn : records ≠ []) :
    merge_to_training st area vOpt =
      (Except.ok (d ++ "/train.jsonl"),
       { dir := area.dir, train_file := some (existing ++ records),
         backups := area.backups ++ [("train.jsonl.bak." ++ v, existing)] }) ∧
    (existing ++ records).length = existing.length + records.length := by
  constructor
  · unfold merge_to_training
    simp only [hd, hv]
    rw [if_neg hv0]
    have hload : load_version_records st v = records := by
      unfold load_version_records
      rw [hr]
      rfl
    rw [hload]
    have hie : records.isEmpty = false := by simpa [List.isEmpty_iff] using hn
    rw [hie]
    simp only [hf, Option.getD_some, Bool.false_eq_true, if_false]
  · exact List.length_append existing records

/-- Training area used as concrete test input. -/
def sampleArea : TrainingArea Nat :=
  { dir := some "training", train_file := some [91, 92], backups := [] }

/-- C3 witness: merging `v002` (one record) onto a two-record destination. -/
theorem merge_append_law_wit :
    merge_to_training sampleStore sampleArea (some "v002") =
      (Except.ok ("training" ++ "/train.jsonl"),
       { dir := sampleArea.dir, train_file := some ([91, 92] ++ [30]),
         backups := sampleArea.backups ++ [("train.jsonl.bak." ++ "v002", [91, 92])] }) ∧
    ([91, 92] ++ [30] : List Nat).length = [91, 92].length + ([30] : List Nat).length :=
  merge_append_law sampleStore sampleArea "training" [91, 92] [30] (some "v002") "v002"
    rfl rfl (by decide) (by decide) rfl (by decide)

/-! ## DedupIndex (src/processors/dedup.py)

The exact fingerprint (`xxhash.xxh64(...).hexdigest()`) is modelled by the
hashed text itself; the MinHash/LSH query is abstracted as a relation
`near : String → String → Bool` between an inserted text and the queried
text (see the module comment). -/

/-- A raw record as `deduplicate_batch` sees it: a JSON object read only
through `record.get(content_key, "")`; modelled as an association list of
string fields. -/
abbrev DRec := List (String × String)

/-- `record.get(k, "")`. -/
def rget (r : DRec) (k : String) : String := (r.lookup k).getD ""

structure DedupStats where
  total_input : Nat
  exact_dupes : Nat
  near_dupes : Nat
  unique : Nat
deriving DecidableEq

structure DedupIndex where
  /-- `exact_hashes`: the fingerprint set (insert-if-absent keeps set
  semantics). -/
  exact_hashes : List String
  /-- The `MinHashLSH` content: insertion key ↦ the text whose MinHash was
  inserted. -/
  lsh_keys : List (String × String)
  /-- `minhashes`: key ↦ (MinHash source text, text length). -/
  minhashes : List (String × String × Nat)
  counter : Nat
deriving DecidableEq

def empty_index : DedupIndex :=
  { exact_hashes := [], lsh_keys := [], minhashes := [], counter := 0 }

/-- `DedupIndex._add_to_index`: add the fingerprint; insert into the LSH
under the given or a fresh synthetic key, swallowing the duplicate-key
`ValueError` (in which case `minhashes` is not updated either). -/
def add_to_index (idx : DedupIndex) (content : String) (key : Option String) :
    DedupIndex :=
  let hashes :=
    if idx.exact_hashes.contains content then idx.exact_hashes
    else content :: idx.exact_hashes
  let kc : String × Nat :=
    match key with
    | some k => (k, idx.counter)
    | none => ("rec_" ++ toString idx.counter, idx.counter + 1)
  if (idx.lsh_keys.lookup kc.1).isSome then
    { idx with exact_hashes := hashes, counter := kc.2 }
  else
    { exact_hashes := hashes, lsh_keys := (kc.1, content) :: idx.lsh_keys,
      minhashes := (kc.1, content, content.length) :: idx.minhashes,
      counter := kc.2 }

/-- `DedupIndex.is_duplicate`: exact check first (no LSH query on that
path), then the LSH query. -/
def is_duplicate (near : String → String → Bool) (idx : DedupIndex)
    (content : String) : Bool × String :=
  if idx.exact_hashes.contains content then (true, "exact")
  else if idx.lsh_keys.any (fun kv => near kv.2 content) then (true, "near")
  else (false, "")

/-- The loop of `DedupIndex.deduplicate_batch`, with the mutated index
threaded explicitly. -/
def dedup_go (near : String → String → Bool) (content_key : String) :
    List DRec → DedupIndex → List DRec → DedupStats →
      List DRec × DedupStats × DedupIndex
  | [], idx, unique, stats => (unique, stats, idx)
  | r :: rest, idx, unique, stats =>
    let content := rget r content_key
    if content = "" then dedup_go near content_key rest idx unique stats
    else
      let res := is_duplicate near idx content
      if res.1 && (res.2 == "exact") then
        dedup_go near content_key rest idx unique
          { stats with exact_dupes := stats.exact_dupes + 1 }
      else if res.1 && (res.2 == "near") then
        dedup_go near content_key rest idx unique
          { stats with near_dupes := stats.near_dupes + 1 }
      else
        dedup_go near content_key rest (add_to_index idx content none)
          (unique ++ [r]) { stats with unique := stats.unique + 1 }

/-- `DedupIndex.deduplicate_batch` (`content_key` defaults to `"text"`). -/
def deduplicate_batch (near : String → String → Bool) (idx : DedupIndex)
    (records : List DRec) (content_key : String := "text") :
    List DRec × DedupStats × DedupIndex :=
  dedup_go near content_key records idx []
    { total_input := records.length, exact_dupes := 0, near_dupes := 0,
      unique := 0 }

/-- A chat message as the corpus loaders read it. -/
structure ChatMsg where
  role : Option String
  content : Option String
deriving DecidableEq

/-- A chat-formatted record (`messages`, `source`), fields read
defensively. -/
structure ChatRec where
  messages : Option (List ChatMsg)
  source : Option String
deriving DecidableEq

inductive LoadErr where
  | malformed
deriving DecidableEq

/-- One line of a corpus `.jsonl` file as `json.loads` sees it: `none`
models a line that is not valid JSON. -/
abbrev CorpusLine := Option ChatRec

/-- The per-file loop of `DedupIndex.load_existing`: `json.loads` each line
(raising on a malformed one — there is no try/except in the source), then
index `messages[2]["content"]` of records with at least 3 messages. -/
def load_file : List CorpusLine → DedupIndex → Nat → Except LoadErr (DedupIndex × Nat)
  | [], idx, loaded => .ok (idx, loaded)
  | none :: _, _, _ => .error .malformed
  | some rec :: rest, idx, loaded =>
    match rec.messages.getD [] with
    | _ :: _ :: m2 :: _ =>
      load_file rest
        (add_to_index idx (m2.content.getD "") (some ("existing_" ++ toString loaded)))
        (loaded + 1)
    | _ => load_file rest idx loaded

/-- `DedupIndex.load_existing`: `files` holds the line lists of those of
`train.jsonl` / `validation.jsonl` that exist. -/
def load_existing (files : List (List CorpusLine)) (idx : DedupIndex) :
    Except LoadErr (DedupIndex × Nat) :=
  files.foldlM (fun p file => load_file file p.1 p.2) (idx, 0)

/-! ### Claim theorems: DedupIndex -/

/-- A well-formed chat record for corpus inputs. -/
def goodLine : ChatRec :=
  { messages :=
      some [{ role := some "system", content := some "sys" },
            { role := some "user", content := some "q" },
            { role := some "assistant", content := some "good answer" }],
    source := some "src" }

/-- C2: a single malformed line aborts the whole corpus load.
`load_existing` has no per-line exception handling, so a `train.jsonl`
whose first line fails `json.loads` raises and indexes nothing — the same
file without the malformed line loads fine, indexing one record. -/
theorem load_existing_aborts_on_malformed :
    load_existing [[none, some goodLine]] empty_index = Except.error LoadErr.malformed ∧
    load_existing [[some goodLine]] empty_index =
      Except.ok (add_to_index empty_index "good answer" (some "existing_0"), 1) :=
  ⟨rfl, rfl⟩

theorem dedup_go_stats (near : String → String → Bool) (key : String) :
    ∀ (records : List DRec) (idx : DedupIndex) (unique : List DRec) (stats : DedupStats),
      (dedup_go near key records idx unique stats).2.1.total_input = stats.total_input ∧
      (dedup_go near key records idx unique stats).2.1.unique + unique.length =
        stats.unique + (dedup_go near key records idx unique stats).1.length ∧
      (dedup_go near key records idx unique stats).2.1.exact_dupes +
        (dedup_go near key records idx unique stats).2.1.near_dupes +
        (dedup_go near key records idx unique stats).2.1.unique =
        stats.exact_dupes + stats.near_dupes + stats.unique +
          (records.filter (fun r => rget r key ≠ "")).length ∧
      (∀ r ∈ (dedup_go near key records idx unique stats).1,
        r ∈ unique ∨ rget r key ≠ "") := by
  intro records
  induction records with
  | nil =>
    intro idx unique stats
    refine ⟨rfl, rfl, by simp [dedup_go], ?_⟩
    intro r hr
    exact Or.inl hr
  | cons r rest ih =>
    intro idx unique stats
    by_cases h0 : rget r key = ""
    · simp only [dedup_go]
      rw [if_pos h0]
      obtain ⟨ih1, ih2, ih3, ih4⟩ := ih idx unique stats
      refine ⟨ih1, ih2, ?_, ih4⟩
      rw [ih3]
      simp [List.filter_cons, h0]
    · by_cases h1 : idx.exact_hashes.contains (rget r key) = true
      · have hdup : is_duplicate near idx (rget r key) = (true, "exact") := by
          unfold is_duplicate
          rw [if_pos h1]
        simp only [dedup_go]
        rw [if_neg h0, hdup]
        simp only [Bool.and_self, if_true, show (("exact" == "exact") : Bool) = true from rfl]
        obtain ⟨ih1, ih2, ih3, ih4⟩ :=
          ih idx unique { stats with exact_dupes := stats.exact_dupes + 1 }
        refine ⟨ih1, ih2, ?_, ih4⟩
        rw [ih3]
        simp [List.filter_cons, h0]
        omega
      · by_cases h2 : (idx.lsh_keys.any (fun kv => near kv.2 (rget r key))) = true
        · have hdup : is_duplicate near idx (rget r key) = (true, "near") := by
            unfold is_duplicate
            rw [if_neg h1, if_pos h2]
          simp only [dedup_go]
          rw [if_neg h0, hdup]
          simp only [show (("near" == "exact") : Bool) = false from rfl,
            show (("near" == "near") : Bool) = true from rfl, Bool.and_false,
            Bool.and_true, Bool.false_eq_true, if_false, if_true]
          obtain ⟨ih1, ih2, ih3, ih4⟩ :=
            ih idx unique { stats with near_dupes := stats.near_dupes + 1 }
          refine ⟨ih1, ih2, ?_, ih4⟩
          rw [ih3]
          simp [List.filter_cons, h0]
          omega
        · have hdup : is_duplicate near idx (rget r key) = (false, "") := by
            unfold is_duplicate
            rw [if_neg h1, if_neg h2]
          simp only [dedup_go]
          rw [if_neg h0, hdup]
          simp only [Bool.false_and, Bool.false_eq_true, if_false]
          obtain ⟨ih1, ih2, ih3, ih4⟩ :=
            ih (add_to_index idx (rget r key) none) (unique ++ [r])
              { stats with unique := stats.unique + 1 }
          refine ⟨ih1, ?_, ?_, ?_⟩
          · simp only [List.length_append, List.length_cons, List.length_nil] at ih2
            omega
          · dsimp only at ih3
            rw [ih3]
            simp [List.filter_cons, h0]
            omega
          · intro x hx
            rcases ih4 x hx with hmem | hne
            · rcases List.mem_append.mp hmem with hu | hr
              · exact Or.inl hu
              · right
                rw [List.mem_singleton.mp hr]
                exact h0
            · exact Or.inr hne

/-- Reference function following the spec's words for C9: keep the first
occurrence of every content value, dropping later repeats; `seen` is the
set of already-admitted contents. -/
def spec_first (key : String) : List DRec → List String → List DRec
  | [], _ => []
  | r :: rest, seen =>
    if seen.contains (rget r key) then spec_first key rest seen
    else r :: spec_first key rest (rget r key :: seen)

theorem spec_first_length_le (key : String) :
    ∀ (records : List DRec) (seen : List String),
      (spec_first key records seen).length ≤ records.length := by
  intro records
  induction records with
  | nil => intro seen; simp [spec_first]
  | cons r rest ih =>
    intro seen
    rw [spec_first]
    split
    · exact le_trans (ih seen) (by simp)
    · simpa using ih (rget r key :: seen)

theorem add_to_index_hashes (idx : DedupIndex) (content : String)
    (h : idx.exact_hashes.contains content = false) :
    (add_to_index idx content none).exact_hashes = content :: idx.exact_hashes := by
  simp only [add_to_index, h]
  split <;> simp

theorem add_to_index_lsh (idx : DedupIndex) (content : String) :
    ∀ kv ∈ (add_to_index idx content none).lsh_keys,
      kv.2 = content ∨ kv ∈ idx.lsh_keys := by
  intro kv hkv
  simp only [add_to_index] at hkv
  split at hkv
  · exact Or.inr hkv
  · rcases List.mem_cons.mp hkv with h | h
    · left; rw [h]
    · exact Or.inr h

theorem dedup_go_no_near (near : String → String → Bool) (key : String)
    (S : List String)
    (hS : ∀ a ∈ S, ∀ b ∈ S, a ≠ b → near a b = false) :
    ∀ (records : List DRec) (idx : DedupIndex) (unique : List DRec) (stats : DedupStats),
      (∀ r ∈ records, rget r key ∈ S) →
      (∀ r ∈ records, rget r key ≠ "") →
      (∀ kv ∈ idx.lsh_keys, kv.2 ∈ S) →
      (∀ kv ∈ idx.lsh_keys, idx.exact_hashes.contains kv.2 = true) →
      (dedup_go near key records idx unique stats).1 =
        unique ++ spec_first key records idx.exact_hashes ∧
      (dedup_go near key records idx unique stats).2.1 =
        { total_input := stats.total_input,
          exact_dupes := stats.exact_dupes +
            (records.length - (spec_first key records idx.exact_hashes).length),
          near_dupes := stats.near_dupes,
          unique := stats.unique + (spec_first key records idx.exact_hashes).length } := by
  intro records
  induction records with
  | nil =>
    intro idx unique stats _ _ _ _
    constructor
    · simp [dedup_go, spec_first]
    · simp [dedup_go, spec_first]
  | cons r rest ih =>
    intro idx unique stats hmemS hne hlshS hlshH
    have hcS : rget r key ∈ S := hmemS r (by simp)
    have hc0 : rget r key ≠ "" := hne r (by simp)
    have hL := spec_first_length_le key rest
    by_cases h1 : idx.exact_hashes.contains (rget r key) = true
    · have hdup : is_duplicate near idx (rget r key) = (true, "exact") := by
        unfold is_duplicate
        rw [if_pos h1]
      simp only [dedup_go]
      rw [if_neg hc0, hdup]
      simp only [show (("exact" == "exact") : Bool) = true from rfl,
        Bool.and_self, if_true]
      obtain ⟨ihA, ihB⟩ := ih idx unique
        { stats with exact_dupes := stats.exact_dupes + 1 }
        (fun x hx => hmemS x (by simp [hx]))
        (fun x hx => hne x (by simp [hx])) hlshS hlshH
      constructor
      · rw [ihA, spec_first, if_pos h1]
      · rw [ihB, spec_first, if_pos h1]
        simp only [DedupStats.mk.injEq, List.length_cons, eq_self_iff_true,
          true_and, and_true]
        have := hL idx.exact_hashes
        omega
    · have hnear : (idx.lsh_keys.any (fun kv => near kv.2 (rget r key))) = false := by
        rw [List.any_eq_false]
        intro kv hkv
        have h2S := hlshS kv hkv
        have h2H := hlshH kv hkv
        have hneq : kv.2 ≠ rget r key := fun he => h1 (he ▸ h2H)
        simp [hS kv.2 h2S (rget r key) hcS hneq]
      have h1m : rget r key ∉ idx.exact_hashes :=
        fun hm => h1 (List.elem_iff.mpr hm)
      have hdup : is_duplicate near idx (rget r key) = (false, "") := by
        unfold is_duplicate
        simp [h1m, hnear]
      simp only [dedup_go]
      rw [if_neg hc0, hdup]
      simp only [Bool.false_and, Bool.false_eq_true, if_false]
      have hcontains : idx.exact_hashes.contains (rget r key) = false := by
        simpa using h1
      have hhash : (add_to_index idx (rget r key) none).exact_hashes =
          rget r key :: idx.exact_hashes := add_to_index_hashes idx _ hcontains
      obtain ⟨ihA, ihB⟩ := ih (add_to_index idx (rget r key) none) (unique ++ [r])
        { stats with unique := stats.unique + 1 }
        (fun x hx => hmemS x (by simp [hx]))
        (fun x hx => hne x (by simp [hx]))
        (by
          intro kv hkv
          rcases add_to_index_lsh idx (rget r key) kv hkv with h | h
          · rw [h]; exact hcS
          · exact hlshS kv h)
        (by
          intro kv hkv
          rw [hhash]
          rcases add_to_index_lsh idx (rget r key) kv hkv with h | h
          · rw [h]
            exact List.elem_iff.mpr (List.mem_cons_self _ _)
          · exact List.elem_iff.mpr
              (List.mem_cons_of_mem _ (List.elem_iff.mp (hlshH kv h))))
      constructor
      · rw [ihA, hhash, spec_first, if_neg h1]
        simp
      · rw [ihB, hhash, spec_first, if_neg h1]
        simp only [DedupStats.mk.injEq, List.length_cons, eq_self_iff_true,
          true_and, and_true]
        have := hL (rget r key :: idx.exact_hashes)
        omega

/-- C9 (amended): on an initially empty index, provided the near-duplicate
query never matches two distinct contents occurring in the batch, the kept
list is exactly the first occurrence of every content (so for two records
with identical non-empty text, exactly the first of the two is kept), every
later identical occurrence is counted as an exact duplicate (exact =
batch size minus number of distinct contents, so one exact duplicate for an
identical pair), and no near duplicates are counted. -/
theorem dedup_first_kept (near : String → String → Bool) (records : List DRec)
    (key : String)
    (hne : ∀ r ∈ records, rget r key ≠ "")
    (hnear : ∀ a ∈ records.map (fun r => rget r key),
      ∀ b ∈ records.map (fun r => rget r key), a ≠ b → near a b = false) :
    (deduplicate_batch near empty_index records key).1 = spec_first key records [] ∧
    (deduplicate_batch near empty_index records key).2.1 =
      { total_input := records.length,
        exact_dupes := records.length - (spec_first key records []).length,
        near_dupes := 0,
        unique := (spec_first key records []).length } := by
  obtain ⟨hA, hB⟩ := dedup_go_no_near near key (records.map (fun r => rget r key))
    hnear records empty_index []
    { total_input := records.length, exact_dupes := 0, near_dupes := 0, unique := 0 }
    (fun r hr => List.mem_map_of_mem _ hr) hne
    (by intro kv hkv; cases hkv) (by intro kv hkv; cases hkv)
  exact ⟨by simpa [empty_index] using hA, by simpa [empty_index] using hB⟩

/-- Concrete near-duplicate relation for the C9 counterexample: exact
Jaccard similarity at the default threshold 0.8 over 5-character shingles —
the quantity the MinHash signature estimates (spec §3) at the default
`lsh_threshold`. -/
def shingle_set (k : Nat) (t : String) : List (List Char) :=
  ((List.range (t.data.length - k + 1)).map (fun i => (t.data.drop i).take k)).dedup

def jaccard80 (a b : String) : Bool :=
  let A := shingle_set 5 a
  let B := shingle_set 5 b
  let inter := A.filter (fun s => B.contains s)
  let union := A ++ B.filter (fun s => !A.contains s)
  4 * union.length ≤ 5 * inter.length

def cxA : DRec := [("text", "abcdefghij0123456789")]
def cxB : DRec := [("text", "abcdefghij0123456789!")]

/-- C9 counterexample: under a near-duplicate relation behaving as the spec
requires of the LSH (a one-character extension of an indexed text is a near
duplicate), a batch holding two records with identical non-empty text keeps
NEITHER of them (the first of the pair is rejected as a near duplicate of a
distinct earlier text) and counts zero exact duplicates — refuting the
claim as stated for an arbitrary batch. -/
theorem dedup_pair_not_kept_cx :
    rget cxB "text" ≠ "" ∧
    jaccard80 (rget cxA "text") (rget cxB "text") = true ∧
    (deduplicate_batch jaccard80 empty_index [cxA, cxB, cxB] "text").1 = [cxA] ∧
    (deduplicate_batch jaccard80 empty_index [cxA, cxB, cxB] "text").2.1.exact_dupes = 0 ∧
    (deduplicate_batch jaccard80 empty_index [cxA, cxB, cxB] "text").2.1.near_dupes = 2 := by
  refine ⟨by decide, by decide, by decide, by decide, by decide⟩

def wA : DRec := [("text", "aaaaa")]
def wB : DRec := [("text", "bbbbb")]

/-- C9 witness: a batch with an identical pair and one other text, under a
near relation matching nothing: the first of the pair is kept, the second
counts as the single exact duplicate. -/
theorem dedup_first_kept_wit :
    (deduplicate_batch (fun _ _ => false) empty_index [wA, wA, wB] "text").1 =
      [wA, wB] ∧
    (deduplicate_batch (fun _ _ => false) empty_index [wA, wA, wB] "text").2.1 =
      { total_input := 3, exact_dupes := 1, near_dupes := 0, unique := 2 } := by
  obtain ⟨h1, h2⟩ := dedup_first_kept (fun _ _ => false) [wA, wA, wB] "text"
    (by decide) (by decide)
  constructor
  · rw [h1]; decide
  · rw [h2]; decide

/-- C10: a record whose content field is missing or empty is silently
dropped: it is never in the kept list and is counted in no counter, the
kept length always equals `unique`, `total_input` counts every record,
`exact + near + unique` counts only the records with non-empty content —
and is strictly below `total_input` on a batch containing an empty-content
record. -/
theorem dedup_empty_content_dropped :
    (∀ (near : String → String → Bool) (idx : DedupIndex) (records : List DRec)
        (key : String),
      (deduplicate_batch near idx records key).2.1.total_input = records.length ∧
      (deduplicate_batch near idx records key).2.1.unique =
        (deduplicate_batch near idx records key).1.length ∧
      (deduplicate_batch near idx records key).2.1.exact_dupes +
        (deduplicate_batch near idx records key).2.1.near_dupes +
        (deduplicate_batch near idx records key).2.1.unique =
        (records.filter (fun r => rget r key ≠ "")).length ∧
      (∀ r ∈ (deduplicate_batch near idx records key).1, rget r key ≠ "")) ∧
    (deduplicate_batch (fun _ _ => false) empty_index [[]] "text").2.1.exact_dupes +
      (deduplicate_batch (fun _ _ => false) empty_index [[]] "text").2.1.near_dupes +
      (deduplicate_batch (fun _ _ => false) empty_index [[]] "text").2.1.unique <
      (deduplicate_batch (fun _ _ => false) empty_index [[]] "text").2.1.total_input := by
  constructor
  · intro near idx records key
    obtain ⟨h1, h2, h3, h4⟩ := dedup_go_stats near key records idx []
      { total_input := records.length, exact_dupes := 0, near_dupes := 0, unique := 0 }
    refine ⟨h1, ?_, ?_, ?_⟩
    · unfold deduplicate_batch
      simpa using h2
    · unfold deduplicate_batch
      simpa using h3
    · intro r hr
      rcases h4 r hr with hm | hn
      · cases hm
      · exact hn
  · decide

/-- C10 witness: the accounting invariants at a concrete batch with an
empty-content record. -/
theorem dedup_empty_content_dropped_wit :
    (deduplicate_batch (fun _ _ => false) empty_index [wA, [], wA] "text").2.1.total_input
        = ([wA, [], wA] : List DRec).length ∧
    (deduplicate_batch (fun _ _ => false) empty_index [wA, [], wA] "text").2.1.unique =
      (deduplicate_batch (fun _ _ => false) empty_index [wA, [], wA] "text").1.length ∧
    (deduplicate_batch (fun _ _ => false) empty_index [wA, [], wA] "text").2.1.exact_dupes +
      (deduplicate_batch (fun _ _ => false) empty_index [wA, [], wA] "text").2.1.near_dupes +
      (deduplicate_batch (fun _ _ => false) empty_index [wA, [], wA] "text").2.1.unique =
      (([wA, [], wA] : List DRec).filter (fun r => rget r "text" ≠ "")).length ∧
    (∀ r ∈ (deduplicate_batch (fun _ _ => false) empty_index [wA, [], wA] "text").1,
      rget r "text" ≠ "") :=
  dedup_empty_content_dropped.1 (fun _ _ => false) empty_index [wA, [], wA] "text"

/-! ## Quality filter (src/processors/quality_filter.py) -/

structure FilterConfig where
  min_content_length : Nat := 100
  min_answer_length : Nat := 200
  max_answer_length : Nat := 8000
  /-- `max_table_ratio` in the source (the float 0.3, modelled exactly). -/
  max_table_frac : ℚ := mkRat 3 10
  /-- `min_alpha_ratio` in the source. -/
  min_alpha_frac : ℚ := mkRat 3 10
  max_image_artifacts : Nat := 2
deriving DecidableEq

/-- `re.match(r"^\s*[\d\.]+\s*$", text.strip())`: on an already stripped
string this matches exactly the nonempty strings of digits and dots
(ASCII restriction of `\d`). -/
def section_numbers_only (t : List Char) : Bool :=
  let s := pyStrip t
  !s.isEmpty && s.all (fun c => c.isDigit || c = '.')

/-- `re.match(r"^[\s\|_\-=]+$", text.strip())`. -/
def table_borders_only (t : List Char) : Bool :=
  let s := pyStrip t
  !s.isEmpty && s.all (fun c => pySpace c || c = '|' || c = '_' || c = '-' || c = '=')

/-- `text.count("|") + text.count("---") * 3 + text.count("===") * 3`. -/
def table_char_count (t : List Char) : Nat :=
  countSub ['|'] t + countSub ['-', '-', '-'] t * 3 + countSub ['=', '=', '='] t * 3

/-- `filter_record(text, config, min_length)`.  The optional parameters keep
their Python falsiness semantics (`min_length or config.min_content_length`;
`if config.max_answer_length and len(text) > ...`); float ratios are exact
rationals; `str.isalpha` is restricted to ASCII. -/
def filter_record (text : String) (config : Option FilterConfig := none)
    (min_length : Option Nat := none) : Bool × String :=
  let cfg := config.getD {}
  let length_threshold :=
    match min_length with
    | some n => if n = 0 then cfg.min_content_length else n
    | none => cfg.min_content_length
  if text.length < length_threshold then (false, "too_short")
  else if cfg.max_answer_length ≠ 0 ∧ cfg.max_answer_length < text.length then
    (false, "too_long")
  else if section_numbers_only text.data then (false, "section_numbers_only")
  else if table_borders_only text.data then (false, "table_borders_only")
  else if 0 < text.length ∧
      cfg.max_table_frac < mkRat (table_char_count text.data) text.length then
    (false, "table_heavy")
  else if 0 < text.length ∧
      mkRat (text.data.countP (fun c => c.isAlpha)) text.length <
        cfg.min_alpha_frac then
    (false, "low_alpha")
  else if cfg.max_image_artifacts < countSub "<!-- image -->".data text.data then
    (false, "image_artifacts")
  else (true, "")

/-! ### Claim theorems: quality filter -/

def midText : String := String.mk (List.replicate 150 'a')

set_option maxRecDepth 40000

/-- C5 counterexample: a 150-character text is shorter than 200 characters
yet passes `filter_record` with the default configuration and no override —
the default lower bound actually applied is `min_content_length = 100`,
not `min_answer_length = 200` (which `filter_record` never reads). -/
theorem filter_accepts_150_chars :
    midText.length < 200 ∧ filter_record midText none none = (true, "") := by
  constructor
  · decide
  · decide

/-- C5 (amended): with the default configuration and no per-invocation
override, the length bounds applied are `[min_content_length = 100,
max_answer_length = 8000]`: any text shorter than 100 characters is
rejected as `too_short`, and any text longer than 8000 characters is
rejected as `too_long`. -/
theorem filter_default_length_bounds (text : String) :
    (text.length < 100 → filter_record text none none = (false, "too_short")) ∧
    (8000 < text.length → filter_record text none none = (false, "too_long")) := by
  constructor
  · intro h
    simp [filter_record, h]
  · intro h
    have h1 : ¬ text.length < 100 := by omega
    have h2 : (8000 : Nat) ≠ 0 ∧ 8000 < text.length := ⟨by omega, h⟩
    simp [filter_record, h1, h2]

/-- C5 witness: the amended bounds at concrete texts of lengths 2 and
8001. -/
theorem filter_default_length_bounds_wit :
    filter_record "ab" none none = (false, "too_short") ∧
    filter_record (String.mk (List.replicate 8001 'a')) none none =
      (false, "too_long") := by
  constructor
  · exact (filter_default_length_bounds "ab").1 (by decide)
  · refine (filter_default_length_bounds _).2 ?_
    show 8000 < (List.replicate 8001 'a').length
    rw [List.length_replicate]
    omega

/-! ## DataValidator (src/pipeline/validator.py)

Format errors and quality warnings are modelled as structured values
carrying the data the Python f-strings interpolate; `result.stats` (a dict
with a fixed key set) is a structure of `Option` fields, `none` = key not
set.  Floats are exact rationals built with `mkRat`; `round` is Python
round-half-to-even. -/

structure VStats where
  avg_answer_length : Option Int := none
  min_answer_length : Option Nat := none
  max_answer_length : Option Nat := none
  unique_sources : Option Nat := none
  source_list : Option (List String) := none
  existing_avg_length : Option Int := none
  new_avg_length : Option Int := none
  existing_record_count : Option Nat := none
  addition_pct : Option ℚ := none
deriving DecidableEq

/-- A format error (hard failure class), with the record/message indices
and data the corresponding message string interpolates. -/
inductive VIssue where
  | messages_not_list (i : Nat)
  | too_few_messages (i got : Nat)
  | wrong_role (i j : Nat) (actual : String)
  | empty_content (i j : Nat)
  | too_few_records (got minimum : Nat)
deriving DecidableEq

/-- A quality warning (soft). -/
inductive VWarn where
  | system_prompt_missing_required (i : Nat)
  | missing_source_field (i : Nat)
  | avg_length_below (avg : ℚ) (threshold : Nat)
  | avg_length_above (avg : ℚ) (threshold : Nat)
  | avg_length_differs (pct : ℚ)
deriving DecidableEq

structure ValidationResult where
  passed : Bool
  total_records : Nat
  format_errors : List VIssue
  quality_warnings : List VWarn
  comparison_notes : List String
  stats : VStats
deriving DecidableEq

/-- The `DataValidator` configuration values (defaults from `__init__`). -/
structure ValidatorConfig where
  min_records : Nat := 10
  max_quality_drop_pct : ℚ := mkRat 5 1
  min_avg_answer_length : Nat := 200
  max_avg_answer_length : Nat := 5000
  required_system_prompt : String := "CMMC"
deriving DecidableEq

/-- Python `round`: nearest integer, ties to even (the float rounding error
of the source is abstracted away). -/
def pyRound (q : ℚ) : Int :=
  let f := q.floor
  let r := q - (f : ℚ)
  if r < mkRat 1 2 then f
  else if mkRat 1 2 < r then f + 1
  else if f % 2 = 0 then f else f + 1

/-- Python `round(x, 1)`. -/
def pyRound1 (q : ℚ) : ℚ := mkRat (pyRound (q * 10)) 10

/-- Python `min` over a nonempty list (callers guard emptiness). -/
def list_min (l : List Nat) : Nat :=
  match l with
  | [] => 0
  | x :: xs => xs.foldl min x

/-- Python `max` over a nonempty list. -/
def list_max (l : List Nat) : Nat :=
  match l with
  | [] => 0
  | x :: xs => xs.foldl max x

/-- The assistant-answer lengths: `len(messages[2].get("content", ""))` of
every record with at least three messages. -/
def answer_lengths (records : List ChatRec) : List Nat :=
  records.filterMap (fun r =>
    match r.messages.getD [] with
    | _ :: _ :: m2 :: _ => some (m2.content.getD "").length
    | _ => none)

/-- `DataValidator._validate_format` for one record at index `i`. -/
def validate_format_record (cfg : ValidatorConfig) (i : Nat) (r : ChatRec) :
    List VIssue × List VWarn :=
  match r.messages with
  | none => ([.messages_not_list i], [])
  | some msgs =>
    if msgs.length < 3 then ([.too_few_messages i msgs.length], [])
    else
      let expected := ["system", "user", "assistant"]
      let role_errs := (List.range 3).filterMap (fun j =>
        let actual := ((msgs.getD j { role := none, content := none }).role).getD ""
        if actual ≠ expected.getD j "" then some (VIssue.wrong_role i j actual)
        else none)
      let content_errs := (List.range msgs.length).filterMap (fun j =>
        let content := ((msgs.getD j { role := none, content := none }).content).getD ""
        if content = "" ∨ pyStrip content.data = [] then some (VIssue.empty_content i j)
        else none)
      let sys_content := ((msgs.getD 0 { role := none, content := none }).content).getD ""
      let w1 :=
        if containsList cfg.required_system_prompt.data sys_content.data then []
        else [VWarn.system_prompt_missing_required i]
      let w2 := if (r.source.getD "") = "" then [VWarn.missing_source_field i] else []
      (role_errs ++ content_errs, w1 ++ w2)

/-- `DataValidator._validate_format` over the batch. -/
def validate_format (cfg : ValidatorConfig) (records : List ChatRec) :
    List VIssue × List VWarn :=
  let per := records.enum.map (fun p => validate_format_record cfg p.1 p.2)
  ((per.map Prod.fst).flatten, (per.map Prod.snd).flatten)

/-- `DataValidator._validate_quality`: early return on the volume check,
then answer-length statistics, then source diversity. -/
def validate_quality (cfg : ValidatorConfig) (records : List ChatRec) :
    List VIssue × List VWarn × VStats :=
  if records.length < cfg.min_records then
    ([.too_few_records records.length cfg.min_records], [], {})
  else
    let lens := answer_lengths records
    let ws :=
      if lens.isEmpty then ([], ({} : VStats))
      else
        let avg : ℚ := mkRat (lens.sum) lens.length
        let w1 :=
          if avg < (cfg.min_avg_answer_length : ℚ) then
            [VWarn.avg_length_below avg cfg.min_avg_answer_length]
          else []
        let w2 :=
          if (cfg.max_avg_answer_length : ℚ) < avg then
            [VWarn.avg_length_above avg cfg.max_avg_answer_length]
          else []
        (w1 ++ w2,
         { avg_answer_length := some (pyRound avg),
           min_answer_length := some (list_min lens),
           max_answer_length := some (list_max lens) })
    let sources := (records.map (fun r => r.source.getD "unknown")).dedup
    ([], ws.1,
     { ws.2 with
        unique_sources := some sources.length,
        source_list := some ((sources.mergeSort (fun a b => a ≤ b)).take 20) })

/-- `DataValidator.validate_all`; `existing` is the parsed content of the
optional existing-corpus files (`none` = no `existing_path` supplied). -/
def validate_all (cfg : ValidatorConfig) (records : List ChatRec)
    (existing : Option (List ChatRec)) : ValidationResult :=
  let fr := validate_format cfg records
  let q := validate_quality cfg records
  let cmp :=
    match existing with
    | none => ([], [], q.2.2)
    | some existing_records =>
      if existing_records.isEmpty then
        ([], ["No existing training data found for comparison"], q.2.2)
      else
        let e_lens := answer_lengths existing_records
        let n_lens := answer_lengths records
        let ws :=
          if !e_lens.isEmpty && !n_lens.isEmpty then
            let e_avg : ℚ := mkRat e_lens.sum e_lens.length
            let n_avg : ℚ := mkRat n_lens.sum n_lens.length
            let pct := |n_avg - e_avg| / e_avg * 100
            (if cfg.max_quality_drop_pct < pct then [VWarn.avg_length_differs pct]
             else [],
             { q.2.2 with
                existing_avg_length := some (pyRound e_avg),
                new_avg_length := some (pyRound n_avg) })
          else ([], q.2.2)
        (ws.1,
         ["Compared against " ++ toString existing_records.length ++ " existing records"],
         { ws.2 with
            existing_record_count := some existing_records.length,
            addition_pct :=
              some (pyRound1 (mkRat records.length existing_records.length * 100)) })
  { passed := (fr.1 ++ q.1).isEmpty,
    total_records := records.length,
    format_errors := fr.1 ++ q.1,
    quality_warnings := fr.2 ++ q.2.1 ++ cmp.1,
    comparison_notes := cmp.2.1,
    stats := cmp.2.2 }

/-! ### Claim theorems: DataValidator -/

/-- C6 counterexample: with the default configuration, an empty batch fails
the volume check, `_validate_quality` returns early, and no
`unique_sources` stat is reported — the source-diversity report is not
independent of the volume check. -/
theorem unique_sources_missing_on_volume_failure :
    (validate_all {} [] none).format_errors =
      [VIssue.too_few_records 0 10] ∧
    (validate_all {} [] none).passed = false ∧
    (validate_all {} [] none).stats.unique_sources = none := by
  refine ⟨by decide, by decide, by decide⟩

/-- C6 (amended): whenever the batch passes the volume check
(`len(records) >= min_records`), the count of distinct `source` values
(missing sources counted as `"unknown"`) is reported in the result stats,
independently of the format checks and of the length-distribution checks;
when the volume check fails the quality step returns early and the stat is
absent. -/
theorem unique_sources_reported (cfg : ValidatorConfig) (records : List ChatRec)
    (h : cfg.min_records ≤ records.length) :
    (validate_all cfg records none).stats.unique_sources =
      some ((records.map (fun r => r.source.getD "unknown")).dedup).length := by
  have hlt : ¬ records.length < cfg.min_records := by omega
  unfold validate_all validate_quality
  simp [hlt]

/-- A record with valid shape used as concrete validator input. -/
def vRec : ChatRec :=
  { messages :=
      some [{ role := some "system", content := some "You are a CMMC expert" },
            { role := some "user", content := some "What is CMMC" },
            { role := some "assistant", content := some "An answer about CMMC" }],
    source := some "s1" }

/-- C6 witness: ten identical records report one distinct source. -/
theorem unique_sources_reported_wit :
    (validate_all {} (List.replicate 10 vRec) none).stats.unique_sources = some 1 := by
  have h := unique_sources_reported {} (List.replicate 10 vRec) (by decide)
  rw [h]
  decide
